import Mathlib

/-!
Shallow embedding of `src/generate_m3u_youtube.py` (yt-m3u-generator).

Python strings are modelled as `List Char`; Python `None`-able values as
`Option`; machine-external calls (the `yt-dlp` subprocess) as oracle
records whose fields carry the observable outcome of each call
(`Except Unit _`, the error standing for a raised exception).  Python
truthiness of an optional string (`None` and `""` are falsy) is
`optTruthy`.
-/

namespace YtM3u

/-- Python strings, modelled as lists of characters. -/
abbrev PyStr := List Char

/-- The ASCII whitespace characters removed by Python's `str.strip()`. -/
def isWs (c : Char) : Bool :=
  c == ' ' || c == '\t' || c == '\n' || c == '\r' || c == '\x0b' || c == '\x0c'

/-- Python `str.strip()`: drop whitespace from both ends. -/
def pyStrip (l : PyStr) : PyStr :=
  List.rdropWhile isWs (List.dropWhile isWs l)

/-- Python `str.lower()` (per-character lowering). -/
def pyLower (l : PyStr) : PyStr := l.map Char.toLower

/-- Python truthiness of an optional string: `None` and `""` are falsy. -/
def optTruthy : Option PyStr → Bool
  | none => false
  | some s => !s.isEmpty

/-- Python `a or b` on optional strings: `b` when `a` is falsy. -/
def pyOrOpt (a b : Option PyStr) : Option PyStr :=
  if optTruthy a then a else b

/-- Python `a or d` where `d` is a plain string default. -/
def pyOrD (a : Option PyStr) (d : PyStr) : PyStr :=
  match a with
  | some s => if s.isEmpty then d else s
  | none => d

def httpPref : PyStr := "http://".toList

def httpsPref : PyStr := "https://".toList

/-- The fixed watch-URL prefix used by `normalize_input_line`. -/
def watchPref : PyStr := "https://www.youtube.com/watch?v=".toList

/-- `normalize_input_line` (src lines 55-61): strip; empty maps to empty;
a line not starting with `http://`/`https://` becomes
`https://www.youtube.com/watch?v=<line>`; otherwise the stripped line. -/
def normalize_input_line (line0 : PyStr) : PyStr :=
  let line := pyStrip line0
  if line = [] then []
  else if !(httpPref.isPrefixOf line || httpsPref.isPrefixOf line) then
    watchPref ++ line
  else line

/-! ### Basic properties of `pyStrip` -/

theorem pyStrip_nil : pyStrip [] = [] := rfl

theorem dropWhile_head_false (p : Char → Bool) :
    ∀ l b bs, List.dropWhile p l = b :: bs → p b = false := by
  intro l
  induction l with
  | nil => intro b bs h; simp [List.dropWhile] at h
  | cons a as ih =>
    intro b bs h
    rw [List.dropWhile_cons] at h
    by_cases hp : p a = true
    · rw [if_pos hp] at h
      exact ih _ _ h
    · rw [if_neg hp] at h
      cases h
      exact Bool.not_eq_true _ |>.mp hp

theorem pyStrip_dropWhile_fix (l : PyStr) :
    List.dropWhile isWs (pyStrip l) = pyStrip l := by
  rcases hk : pyStrip l with _ | ⟨b, bs⟩
  · rfl
  · have hpre := List.rdropWhile_prefix isWs (List.dropWhile isWs l)
    rw [show List.rdropWhile isWs (List.dropWhile isWs l) = pyStrip l from rfl, hk] at hpre
    obtain ⟨t, ht⟩ := hpre
    have hb : isWs b = false := dropWhile_head_false isWs l b (bs ++ t) ht.symm
    simp [List.dropWhile_cons, hb]

theorem pyStrip_idem (l : PyStr) : pyStrip (pyStrip l) = pyStrip l := by
  show List.rdropWhile isWs (List.dropWhile isWs (pyStrip l)) = pyStrip l
  rw [pyStrip_dropWhile_fix l]
  show List.rdropWhile isWs (List.rdropWhile isWs (List.dropWhile isWs l)) = _
  rw [List.rdropWhile_idempotent]
  rfl

theorem pyStrip_getLast?_not (l : PyStr) (c : Char)
    (h : (pyStrip l).getLast? = some c) : isWs c = false := by
  have hne : pyStrip l ≠ [] := by
    intro hnil; rw [hnil] at h; simp at h
  have hlast := List.rdropWhile_last_not isWs (List.dropWhile isWs l) hne
  have heq := List.getLast?_eq_getLast (pyStrip l) hne
  rw [heq] at h
  cases h
  simpa using hlast

theorem pyStrip_eq_self (l : PyStr) (h0 : l ≠ [])
    (hh : ∀ c, l.head? = some c → isWs c = false)
    (hl : ∀ c, l.getLast? = some c → isWs c = false) :
    pyStrip l = l := by
  have h1 : List.dropWhile isWs l = l := by
    rw [List.dropWhile_eq_self_iff]
    intro hlen
    have hc : l.head? = some (l.get ⟨0, hlen⟩) := by
      cases l with
      | nil => simp at hlen
      | cons a as => rfl
    have := hh _ hc
    simpa using this
  show List.rdropWhile isWs (List.dropWhile isWs l) = l
  rw [h1, List.rdropWhile_eq_self_iff]
  intro h0'
  have := hl _ (List.getLast?_eq_getLast l h0')
  simp [this]

theorem pyStrip_watch_append (s : PyStr) :
    pyStrip (watchPref ++ pyStrip s) = watchPref ++ pyStrip s ∨ pyStrip s = [] := by
  by_cases hnil : pyStrip s = []
  · exact Or.inr hnil
  · left
    apply pyStrip_eq_self _ (by simp [watchPref])
    · intro c hc
      have : (watchPref ++ pyStrip s).head? = some 'h' := rfl
      rw [this] at hc
      cases hc
      decide
    · intro c hc
      rw [List.getLast?_append_of_ne_nil _ hnil] at hc
      exact pyStrip_getLast?_not s c hc

/-! ### Normalizer: idempotence and scheme behaviour (claim C7) -/

theorem normalize_empty_strip (x : PyStr) (h : pyStrip x = []) :
    normalize_input_line x = [] := by
  simp [normalize_input_line, h]

theorem normalize_scheme_strip (x : PyStr) (h0 : pyStrip x ≠ [])
    (hsch : (httpPref.isPrefixOf (pyStrip x) || httpsPref.isPrefixOf (pyStrip x)) = true) :
    normalize_input_line x = pyStrip x := by
  simp [normalize_input_line, h0, hsch]

theorem normalize_watch_strip (x : PyStr) (h0 : pyStrip x ≠ [])
    (hsch : (httpPref.isPrefixOf (pyStrip x) || httpsPref.isPrefixOf (pyStrip x)) = false) :
    normalize_input_line x = watchPref ++ pyStrip x := by
  simp [normalize_input_line, h0, hsch]

theorem normalize_input_line_idem (x : PyStr) :
    normalize_input_line (normalize_input_line x) = normalize_input_line x := by
  by_cases h0 : pyStrip x = []
  · rw [normalize_empty_strip x h0]
    exact normalize_empty_strip [] rfl
  · by_cases hsch : (httpPref.isPrefixOf (pyStrip x) || httpsPref.isPrefixOf (pyStrip x)) = true
    · rw [normalize_scheme_strip x h0 hsch]
      have hstrip : pyStrip (pyStrip x) = pyStrip x := pyStrip_idem x
      have h1 : pyStrip (pyStrip x) ≠ [] := by rw [hstrip]; exact h0
      have h2 : (httpPref.isPrefixOf (pyStrip (pyStrip x)) ||
          httpsPref.isPrefixOf (pyStrip (pyStrip x))) = true := by
        rw [hstrip]; exact hsch
      rw [normalize_scheme_strip (pyStrip x) h1 h2, hstrip]
    · have hsch' : (httpPref.isPrefixOf (pyStrip x) || httpsPref.isPrefixOf (pyStrip x)) = false :=
        Bool.eq_false_iff.mpr hsch
      rw [normalize_watch_strip x h0 hsch']
      have hfix : pyStrip (watchPref ++ pyStrip x) = watchPref ++ pyStrip x := by
        rcases pyStrip_watch_append x with h | h
        · exact h
        · exact absurd h h0
      have hne : watchPref ++ pyStrip x ≠ [] := by simp [watchPref]
      have hpre : httpsPref.isPrefixOf (watchPref ++ pyStrip x) = true := by
        rw [List.isPrefixOf_iff_prefix]
        refine ⟨"www.youtube.com/watch?v=".toList ++ pyStrip x, ?_⟩
        rw [← List.append_assoc]
        rfl
      have h1 : pyStrip (watchPref ++ pyStrip x) ≠ [] := by rw [hfix]; exact hne
      have h2 : (httpPref.isPrefixOf (pyStrip (watchPref ++ pyStrip x)) ||
          httpsPref.isPrefixOf (pyStrip (watchPref ++ pyStrip x))) = true := by
        rw [hfix, hpre]; simp
      rw [normalize_scheme_strip (watchPref ++ pyStrip x) h1 h2, hfix]

/-! ### Python string scanning helpers -/

/-- Python's `needle in hay` substring test. -/
def pyInStr (needle : PyStr) : PyStr → Bool
  | [] => needle.isEmpty
  | c :: rest => needle.isPrefixOf (c :: rest) || pyInStr needle rest

/-- Python `str.split(sep)` for a one-character separator (keeps empty fields). -/
def pySplitOnAux (sep : Char) (acc : List Char) : List Char → List PyStr
  | [] => [acc.reverse]
  | c :: cs =>
    if c == sep then acc.reverse :: pySplitOnAux sep [] cs
    else pySplitOnAux sep (c :: acc) cs

def pySplitOn (sep : Char) (l : PyStr) : List PyStr := pySplitOnAux sep [] l

/-- Python `str.splitlines()` for the `\n`, `\r` and `\r\n` terminators
(the program only ever meets these); a trailing terminator adds no
empty final line. -/
def pySplitLinesAux (acc : List Char) : List Char → List PyStr
  | [] => if acc.isEmpty then [] else [acc.reverse]
  | '\r' :: '\n' :: cs => acc.reverse :: pySplitLinesAux [] cs
  | c :: cs =>
    if c == '\n' || c == '\r' then acc.reverse :: pySplitLinesAux [] cs
    else pySplitLinesAux (c :: acc) cs

def pySplitLines (l : PyStr) : List PyStr := pySplitLinesAux [] l

/-- `first_http_line` (src 91-98): the first stripped output line that
starts with `http://` or `https://`. -/
def first_http_line (text : PyStr) : Option PyStr :=
  if text.isEmpty then none
  else
    (pySplitLines text).findSome? (fun ln =>
      let l := pyStrip ln
      if httpPref.isPrefixOf l || httpsPref.isPrefixOf l then some l else none)

/-- `is_manifest_url` (src 100-104). -/
def is_manifest_url (url : PyStr) : Bool :=
  if url.isEmpty then false
  else
    let u := pyLower url
    pyInStr (".m3u8".toList) u || pyInStr ("manifest".toList) u ||
      pyInStr ("hls_playlist".toList) u

/-- `int()` on a string of ASCII digits. -/
def digitsToNat (ds : List Char) : Nat :=
  ds.foldl (fun n c => n * 10 + (c.toNat - '0'.toNat)) 0

/-- `EXPIRE_RE.search` plus `int(m.group(1))` (src 33 and 237-244): the
first case-insensitive occurrence of `expire/` followed by at least one
digit, with the maximal digit run parsed as the epoch. -/
def findExpire : PyStr → Option Nat
  | [] => none
  | c :: rest =>
    if ("expire/".toList).isPrefixOf (pyLower (c :: rest)) then
      let ds := ((c :: rest).drop 7).takeWhile (fun d => d.isDigit)
      if ds.isEmpty then findExpire rest else some (digitsToNat ds)
    else findExpire rest

/-! ### EXTINF builders (src 195-214) -/

/-- `safe_attr` (src 52-53): `(s or "").replace('"', '%22')`. -/
def safe_attr (s : Option PyStr) : PyStr :=
  (pyOrD s []).flatMap (fun c => if c == '"' then "%22".toList else [c])

/-- `title.replace("\n", " ").strip()` as used by both EXTINF builders. -/
def titleSafe (t : PyStr) : PyStr :=
  pyStrip (t.map (fun c => if c == '\n' then ' ' else c))

/-- The `tvg-id`/`tvg-logo` attribute block shared by both builders. -/
def extinfAttrs (metaId thumbnail : Option PyStr) : PyStr :=
  let attrs : List PyStr :=
    (if optTruthy metaId then [("tvg-id=\"".toList) ++ (metaId.getD []) ++ ['"']] else []) ++
    (if optTruthy thumbnail then [("tvg-logo=\"".toList) ++ safe_attr thumbnail ++ ['"']] else [])
  if attrs.isEmpty then [] else ' ' :: (List.intercalate [' '] attrs)

/-- `build_entry_extinf` (src 195-203). -/
def build_entry_extinf (metaId thumbnail : Option PyStr) (title : PyStr) : PyStr :=
  ("#EXTINF:-1".toList) ++ extinfAttrs metaId thumbnail ++ [','] ++ titleSafe title ++ ['\n']

/-- `build_special_extinf_only_expire` (src 205-214). -/
def build_special_extinf_only_expire (expireStr relStr : PyStr)
    (specialMetaId specialThumbnail : Option PyStr) : PyStr :=
  let title :=
    if !expireStr.isEmpty then
      ("Λήξη συνδέσμων: ".toList) ++ expireStr ++ (" (".toList) ++ relStr ++ [')']
    else "Λήξη συνδέσμων: μη διαθέσιμη".toList
  ("#EXTINF:-1".toList) ++ extinfAttrs specialMetaId specialThumbnail ++ [','] ++
    titleSafe title ++ ['\n']

/-! ### Retry wrapper (src 75-89)

The external `yt-dlp` invocation is an oracle `call : Nat → Except Unit α`
giving the outcome of the `i`-th attempt (`error` models a raised
`TimeoutExpired` or any other exception, both retried identically by the
source).  The function returns the outcome together with the trace of
back-off delays slept between attempts. -/

def runRetriesAux {α : Type} (call : Nat → Except Unit α) (backoff : ℚ) :
    Nat → Nat → Except Unit α × List ℚ
  | idx, 0 =>
    (match call idx with
     | .ok a => .ok a
     | .error e => .error e, [])
  | idx, rem + 1 =>
    match call idx with
    | .ok a => (.ok a, [])
    | .error _ =>
      let r := runRetriesAux call backoff (idx + 1) rem
      (r.1, backoff * ((idx : ℚ) + 1) :: r.2)

/-- `run_yt_dlp_cmd_with_retries` (src 75-89): first call is attempt 0;
after a failure the attempt counter is incremented, the failure is
re-raised once it exceeds `retries`, and otherwise the wrapper sleeps
`backoff * attempt` and tries again. -/
def run_yt_dlp_cmd_with_retries {α : Type} (call : Nat → Except Unit α)
    (retries : Nat) (backoff : ℚ) : Except Unit α × List ℚ :=
  runRetriesAux call backoff 0 retries

/-! ### Stream-URL resolution (src 144-192)

The three `yt-dlp` invocations of `get_stream_url_with_ytdlp` are an
oracle: `gOut`/`fOut`/`jOut` carry the combined `stdout or stderr or ""`
text of the `-g`, `-f <fmt> -g` and `-j` calls (`error` = the retry
wrapper re-raised), and `jParse` models `json.loads`.  JSON values are
typed shallowly: a parsed document is either a dict of the three fields
the code reads or some other JSON value; format entries are dicts with
the three optional string fields the code reads. -/

structure JFormat where
  url : Option PyStr
  ext : Option PyStr
  protocol : Option PyStr
deriving DecidableEq

structure JDict where
  url : Option PyStr
  requested_formats : Option (List JFormat)
  formats : Option (List JFormat)
deriving DecidableEq

inductive PyJson where
  | dict (d : JDict)
  | other
deriving DecidableEq

structure StreamOracle where
  gOut : Except Unit PyStr
  fOut : Except Unit PyStr
  jOut : Except Unit PyStr
  jParse : PyStr → Except Unit PyJson

/-- The scan of a parsed `-j` document (src 172-189): top-level `url`,
then the first `requested_formats` entry with a truthy `url` (an absent
or empty `requested_formats` list skips the loop, and a loop that finds
nothing falls through), then `formats` preferring `.m3u8`/`m3u8`
extension or protocol, then the first format with a truthy `url`. -/
def scanDict (d : JDict) : Option PyStr :=
  if optTruthy d.url then d.url
  else
    match (d.requested_formats.getD []).findSome?
        (fun f => if optTruthy f.url then f.url else none) with
    | some u => some u
    | none =>
      let fmts := d.formats.getD []
      match fmts.findSome? (fun f =>
          if optTruthy f.url &&
              (pyInStr (".m3u8".toList) (pyOrD f.ext []) ||
               pyInStr ("m3u8".toList) (pyOrD f.protocol [])) then
            f.url
          else none) with
      | some u => some u
      | none => fmts.findSome? (fun f => if optTruthy f.url then f.url else none)

/-- One direct-URL attempt (src 149-156 and 157-165): a `try` block
around the call whose combined stripped output is fed to
`first_http_line`; a raised exception yields nothing. -/
def directUrlOutcome (callOut : Except Unit PyStr) : Option PyStr :=
  match callOut with
  | .ok out => first_http_line (pyStrip out)
  | .error _ => none

/-- The `-j` strategy (src 166-191): empty output, a `json.loads`
failure, a non-dict document or a raised exception all yield nothing;
a dict is scanned by `scanDict`. -/
def jsonStrategyOutcome (o : StreamOracle) : Option PyStr :=
  match o.jOut with
  | .error _ => none
  | .ok rawOut =>
    let out := pyStrip rawOut
    if out.isEmpty then none
    else
      match o.jParse out with
      | .error _ => none
      | .ok .other => none
      | .ok (.dict d) => scanDict d

/-- `get_stream_url_with_ytdlp` (src 144-192): strategy (a) `-g`, then
(b) `-f <fmt> -g` when `fmt` is non-empty, then (c) `-j` plus the JSON
scan; every strategy's exception is swallowed and `None` is returned
when all fail. -/
def get_stream_url_with_ytdlp (fmt : PyStr) (o : StreamOracle) : Option PyStr :=
  match directUrlOutcome o.gOut with
  | some m => some m
  | none =>
    match (if !fmt.isEmpty then directUrlOutcome o.fOut else none) with
    | some m => some m
    | none => jsonStrategyOutcome o

/-! Spec-side rendering of the strategy chain (claim C4): an ordered
list of strategies, each `Option`-valued, tried in order until one
yields a value. -/

def firstSome {α : Type} : List (Option α) → Option α
  | [] => none
  | x :: xs =>
    match x with
    | some a => some a
    | none => firstSome xs

/-- Spec C4 strategy (a): default-format direct-URL resolution. -/
def specDirectDefault (o : StreamOracle) : Option PyStr :=
  match o.gOut with
  | .ok out => first_http_line (pyStrip out)
  | .error _ => none

/-- Spec C4 strategy (b): quality-specific direct-URL resolution with
the configured format descriptor. -/
def specDirectQuality (o : StreamOracle) : Option PyStr :=
  match o.fOut with
  | .ok out => first_http_line (pyStrip out)
  | .error _ => none

/-- Spec C4 scan order inside strategy (c): top-level `url`, then each
entry of `requested_formats`, then `formats` preferring a
segmented/manifest extension or protocol, else the first format with a
URL. -/
def specJsonScan (d : JDict) : Option PyStr :=
  firstSome
    [ (if optTruthy d.url then d.url else none),
      (d.requested_formats.getD []).findSome?
        (fun f => if optTruthy f.url then f.url else none),
      (d.formats.getD []).findSome? (fun f =>
        if optTruthy f.url &&
            (pyInStr (".m3u8".toList) (pyOrD f.ext []) ||
             pyInStr ("m3u8".toList) (pyOrD f.protocol [])) then
          f.url
        else none),
      (d.formats.getD []).findSome? (fun f => if optTruthy f.url then f.url else none) ]

/-- Spec C4 strategy (c): full-metadata JSON resolution. -/
def specJsonStrategy (o : StreamOracle) : Option PyStr :=
  match o.jOut with
  | .error _ => none
  | .ok rawOut =>
    let out := pyStrip rawOut
    if out.isEmpty then none
    else
      match o.jParse out with
      | .error _ => none
      | .ok .other => none
      | .ok (.dict d) => specJsonScan d

/-- Spec C4: the whole chain, first strategy to yield a URL wins. -/
def specStreamChain (o : StreamOracle) : Option PyStr :=
  firstSome [specDirectDefault o, specDirectQuality o, specJsonStrategy o]

/-! ### Minimal metadata (src 124-142) -/

/-- A `--print` field: `parts[i].strip() if len(parts) > i and parts[i].strip() else None`. -/
def stripField (p : Option PyStr) : Option PyStr :=
  match p with
  | none => none
  | some s =>
    let t := pyStrip s
    if t.isEmpty then none else some t

/-- `get_minimal_meta` (src 124-142): one `--print "%(id)s\t%(title)s\t%(thumbnail)s"`
call whose combined output is `metaCall` (`error` = the retry wrapper
re-raised, absorbed here); parses the first non-empty output line split
on tabs, each missing or blank field becoming `None`. -/
def get_minimal_meta (metaCall : Except Unit PyStr) :
    Option PyStr × Option PyStr × Option PyStr :=
  match metaCall with
  | .error _ => (none, none, none)
  | .ok raw =>
    let out := pyStrip raw
    if out.isEmpty then (none, none, none)
    else
      let first := (pySplitLines out).headD []
      let parts := pySplitOn '\t' first
      (stripField (parts.get? 0), stripField (parts.get? 1), stripField (parts.get? 2))

/-! ### The buffered worker (src 217-245) -/

/-- The configuration flags that change the worker's logic; the
passthrough call parameters (timeout, cookies, retries, the unused
`full_metadata`) live inside the oracle's outcomes. -/
structure RunCfg where
  noMetadata : Bool
  fallbackWatch : Bool
deriving DecidableEq

/-- The Python value a stream resolution can hand the worker:
`None`, a string, or a truthy non-string — the `-j` path returns
`parsed.get("url")` (src 175, likewise the format entries' `url`
fields) untyped, so a JSON document such as `{"url": 1}` makes
`get_stream_url_with_ytdlp` return a truthy non-string value.  (A falsy
non-string behaves exactly like `None` under every truthiness test the
worker applies, so it needs no separate constructor.) -/
inductive StreamVal where
  | noneV
  | str (s : PyStr)
  | nonstr
deriving DecidableEq

/-- Python truthiness of a stream value: `None` is falsy, a string is
truthy iff non-empty, and `nonstr` stands for a truthy non-string. -/
def streamValTruthy : StreamVal → Bool
  | .noneV => false
  | .str s => !s.isEmpty
  | .nonstr => true

/-- Per-line oracle: the outcome of the metadata call and of
`get_stream_url_with_ytdlp` (`error` models any raised exception, which
the worker's `try`/`except` converts to `None`). -/
structure WorkerOracle where
  metaCall : Except Unit PyStr
  streamCall : Except Unit StreamVal

/-- The worker's 6-tuple `(line, meta_id, title, thumbnail, stream_url,
expire_epoch)`. -/
structure Record where
  line : PyStr
  metaId : Option PyStr
  title : Option PyStr
  thumbnail : Option PyStr
  streamUrl : Option PyStr
  expire : Option Nat
deriving DecidableEq

/-- The worker's `try: stream_url = get_stream_url_with_ytdlp(...)
except Exception: stream_url = None` (src 231-234). -/
def stream_url_caught (o : WorkerOracle) : StreamVal :=
  match o.streamCall with
  | .ok v => v
  | .error _ => .noneV

/-- The worker's metadata step (src 225-230): the defaults
`(None, line, None)` for `(meta_id, title, thumbnail)`, overridden by
the minimal-metadata fields when any of them is truthy, with each
override falling back via `or`. -/
def worker_meta (cfg : RunCfg) (line : PyStr) (o : WorkerOracle) :
    Option PyStr × PyStr × Option PyStr :=
  if cfg.noMetadata then (none, line, none)
  else
    let m := get_minimal_meta o.metaCall
    if optTruthy m.1 || optTruthy m.2.1 || optTruthy m.2.2 then
      (pyOrOpt m.1 none, pyOrD m.2.1 line, pyOrOpt m.2.2 none)
    else (none, line, none)

/-- The worker's endpoint step (src 231-236): the caught stream result,
replaced by the watch URL when falsy and the fallback flag is set. -/
def worker_stream (cfg : RunCfg) (watchUrl : PyStr) (o : WorkerOracle) : StreamVal :=
  let streamRaw := stream_url_caught o
  if !streamValTruthy streamRaw && cfg.fallbackWatch then .str watchUrl else streamRaw

/-- `check_url_entry_buffered` (src 217-245), in the `Except` monad so
that an uncaught exception surfaces as `.error`.  The expiry step
(src 237-244) guards with `if stream_url:` and only wraps the `int`
conversion in a `try`; `EXPIRE_RE.search(stream_url)` at src 239 is
outside any `try`, so a truthy non-string endpoint raises `TypeError`
there and the exception escapes the worker — the `.nonstr` arm. -/
def check_url_entry_buffered (cfg : RunCfg) (rawLine : PyStr) (o : WorkerOracle) :
    Except Unit Record :=
  let line := pyStrip rawLine
  if line.isEmpty then .ok ⟨line, none, none, none, none, none⟩
  else
    let watchUrl := normalize_input_line line
    let meta := worker_meta cfg line o
    match worker_stream cfg watchUrl o with
    | .nonstr => .error ()
    | .noneV => .ok ⟨line, meta.1, some meta.2.1, meta.2.2, none, none⟩
    | .str s =>
      let expire := if !s.isEmpty then findExpire s else none
      .ok ⟨line, meta.1, some meta.2.1, meta.2.2, some s, expire⟩

/-- The record a worker invocation buffers when it returns one (the
`error` arm only triggers on the `.nonstr` raise; `worker_total` below
rules it out whenever the caught stream value is `None` or a string). -/
def worker_result (cfg : RunCfg) (rawLine : PyStr) (o : WorkerOracle) : Record :=
  match check_url_entry_buffered cfg rawLine o with
  | .ok r => r
  | .error _ => ⟨[], none, none, none, none, none⟩

/-- The coordinator's fan-in (src 335-341): every future's result is
appended to the buffer; a future that raised is only logged.  The
buffer's order is the completion order, an arbitrary permutation of the
submission order, which this model leaves to the caller by quantifying
over the buffered list where order matters. -/
def collect_buffered (cfg : RunCfg) (inputs : List PyStr)
    (os : PyStr → WorkerOracle) : List Record :=
  (inputs.map (fun l => check_url_entry_buffered cfg l (os l))).filterMap
    (fun e => match e with
      | .ok r => some r
      | .error _ => none)

/-! ### Aggregation and emission (src 343-411) -/

/-- `expire_epochs = [r[5] for r in buffered if r[5]]` (src 344): the
Python truthiness test keeps only non-`None`, non-zero epochs. -/
def expire_epochs (buffered : List Record) : List Nat :=
  buffered.filterMap (fun r =>
    match r.expire with
    | some e => if e ≠ 0 then some e else none
    | none => none)

/-- `expire_max` (src 345): `max(expire_epochs)` when non-empty, else `None`. -/
def expire_max (buffered : List Record) : Option Nat :=
  (expire_epochs buffered).max?

/-- Spec C2's reading: the maximum of all non-null expiry epochs. -/
def spec_expire_max (buffered : List Record) : Option Nat :=
  (buffered.filterMap Record.expire).max?

/-- `first_manifest` (src 355). -/
def first_manifest (buffered : List Record) : Option PyStr :=
  buffered.findSome? (fun r =>
    match r.streamUrl with
    | some u => if !u.isEmpty && is_manifest_url u then some u else none
    | none => none)

/-- `special_url = first_manifest or first_watch` (src 354-357). -/
def special_url (buffered : List Record) (uniqueInputs : List PyStr) : Option PyStr :=
  pyOrOpt (first_manifest buffered)
    (match uniqueInputs with
     | [] => none
     | l :: _ => some (normalize_input_line l))

/-- The `expire_str`/`rel_str` pair (src 359-376).  The date/relative
rendering of a present epoch depends on the wall clock and timezone
database; it is abstracted as `render`, whose `error` models the
`except` branch.  Both the falsy-`expire_max` branch and the exception
branch yield the sentinel pair. -/
def main_expire_strings (em : Option Nat)
    (render : Nat → Except Unit (PyStr × PyStr)) : PyStr × PyStr :=
  match em with
  | some e =>
    if e ≠ 0 then
      match render e with
      | .ok p => p
      | .error _ => ("μη διαθέσιμη".toList, "μη διαθέσιμη".toList)
    else ("μη διαθέσιμη".toList, "μη διαθέσιμη".toList)
  | none => ("μη διαθέσιμη".toList, "μη διαθέσιμη".toList)

/-- `key_norm = (meta_id or title or "").strip().lower()` (src 395). -/
def identKey (r : Record) : PyStr :=
  pyLower (pyStrip (pyOrD (pyOrOpt r.metaId r.title) []))

/-- One emitted entry: the EXTINF descriptor line (with
`item_logo = thumbnail or favicon_service` and `title or input_line`)
and the endpoint line (src 394-401). -/
def mkEntry (fav : PyStr) (r : Record) : PyStr × PyStr :=
  (build_entry_extinf r.metaId (some (pyOrD r.thumbnail fav)) (pyOrD r.title r.line),
   r.streamUrl.getD [])

/-- The emission loop over the buffered records (src 386-411), carrying
the `added_urls`/`added_keys` sets; returns the emitted
(descriptor, endpoint) pairs and the reported duplicate input lines. -/
def emitAux (sp : Option PyStr) (fav : PyStr) (urls keys : List PyStr) :
    List Record → List (PyStr × PyStr) × List PyStr
  | [] => ([], [])
  | r :: rs =>
    if !optTruthy r.streamUrl then emitAux sp fav urls keys rs
    else
      let u := r.streamUrl.getD []
      if optTruthy sp && u == sp.getD [] then emitAux sp fav urls keys rs
      else
        let key := identKey r
        if u ∈ urls ∨ (key ≠ [] ∧ key ∈ keys) then
          let res := emitAux sp fav urls keys rs
          (res.1, r.line :: res.2)
        else
          let res := emitAux sp fav (u :: urls) (if key.isEmpty then keys else key :: keys) rs
          (mkEntry fav r :: res.1, res.2)

/-- The entries written after the special entry. -/
def emitted_entries (sp : Option PyStr) (fav : PyStr) (buffered : List Record) :
    List (PyStr × PyStr) :=
  (emitAux sp fav [] [] buffered).1

/-- Spec-side (C1/C3): the surviving records of the post-fetch dedup
pass — skip a record with no stream endpoint, one whose endpoint equals
the special entry's, and one whose endpoint or identity key was already
kept earlier; first-seen-wins. -/
def keptRecords (sp : Option PyStr) (urls keys : List PyStr) :
    List Record → List Record
  | [] => []
  | r :: rs =>
    if !optTruthy r.streamUrl then keptRecords sp urls keys rs
    else
      let u := r.streamUrl.getD []
      if optTruthy sp && u == sp.getD [] then keptRecords sp urls keys rs
      else
        let key := identKey r
        if u ∈ urls ∨ (key ≠ [] ∧ key ∈ keys) then keptRecords sp urls keys rs
        else r :: keptRecords sp (u :: urls) (if key.isEmpty then keys else key :: keys) rs

/-- The whole output after the header (src 380-411): the special
descriptor, its endpoint line when one was selected, then the
(descriptor, endpoint) lines of the surviving records. -/
def output_after_header (buffered : List Record) (uniqueInputs : List PyStr)
    (fav : PyStr) (render : Nat → Except Unit (PyStr × PyStr)) : List PyStr :=
  let sp := special_url buffered uniqueInputs
  let strs := main_expire_strings (expire_max buffered) render
  let specialExtinf :=
    build_special_extinf_only_expire strs.1 strs.2 (some ("info".toList)) (some fav)
  (specialExtinf :: (match sp with
    | some u => [u]
    | none => [])) ++
    (emitAux sp fav [] [] buffered).1.flatMap (fun e => [e.1, e.2])

/-! ### Input loading and pre-fetch dedup (src 284-302) -/

/-- `raw_lines = [ln.strip() for ln in f if ln.strip()]` (src 287). -/
def input_lines (raw : List PyStr) : List PyStr :=
  (raw.map pyStrip).filter (fun l => !l.isEmpty)

/-- The pre-fetch dedup loop (src 292-302), carrying `seen_input_lines`;
returns `unique_inputs` and the reported duplicate lines. -/
def dedupe_inputs_aux (seen : List PyStr) : List PyStr → List PyStr × List PyStr
  | [] => ([], [])
  | ln :: rest =>
    let key := pyLower (pyStrip ln)
    if key.isEmpty then dedupe_inputs_aux seen rest
    else if key ∈ seen then
      let r := dedupe_inputs_aux seen rest
      (r.1, ln :: r.2)
    else
      let r := dedupe_inputs_aux (key :: seen) rest
      (ln :: r.1, r.2)

def dedupe_inputs (ls : List PyStr) : List PyStr × List PyStr :=
  dedupe_inputs_aux [] ls

/-! ### Relative-time rendering (src 106-121) -/

/-- `human_readable_delta_greek_full`, on the truncated total-seconds
value of the timedelta. -/
def human_readable_delta_greek_full (t : Int) : String :=
  if t ≤ 0 then "λήγει τώρα"
  else
    let total := t.toNat
    let hours := total / 3600
    let rem := total % 3600
    let minutes := rem / 60
    let seconds := rem % 60
    let parts : List String :=
      (if hours ≠ 0 then
        [toString hours ++ " " ++ (if hours = 1 then "ώρα" else "ώρες")] else []) ++
      (if minutes ≠ 0 then
        [toString minutes ++ " " ++ (if minutes = 1 then "λεπτό" else "λεπτά")] else []) ++
      (if seconds ≠ 0 then
        [toString seconds ++ " " ++ (if seconds = 1 then "δευτερόλεπτο" else "δευτερόλεπτα")] else [])
    "σε " ++ String.intercalate " και " parts

/-- Spec C9's reading: decompose into hours/minutes/seconds, render only
the non-zero components in descending order, join with the connective;
non-positive deltas render the sentinel. -/
def specRenderDelta (t : Int) : String :=
  if t ≤ 0 then "λήγει τώρα"
  else
    let total := t.toNat
    let hours := total / 3600
    let minutes := total % 3600 / 60
    let seconds := total % 3600 % 60
    let components : List (Option String) :=
      [ if hours = 0 then none else
          some (toString hours ++ " " ++ (if hours = 1 then "ώρα" else "ώρες")),
        if minutes = 0 then none else
          some (toString minutes ++ " " ++ (if minutes = 1 then "λεπτό" else "λεπτά")),
        if seconds = 0 then none else
          some (toString seconds ++ " " ++ (if seconds = 1 then "δευτερόλεπτο" else "δευτερόλεπτα")) ]
    "σε " ++ String.intercalate " και " components.reduceOption

/-! ## Claim C7 — normalization total/idempotent, scheme behaviour -/

/-- C7 (counterexample): the claim says a string that already begins
with a recognized URL scheme is returned unchanged; `"http://a "` begins
with `http://` yet `normalize_input_line` returns it stripped of the
trailing blank, so it is not returned unchanged. -/
theorem c7_scheme_not_unchanged_counterexample :
    httpPref.isPrefixOf ("http://a ".toList) = true ∧
    normalize_input_line ("http://a ".toList) = "http://a".toList ∧
    normalize_input_line ("http://a ".toList) ≠ "http://a ".toList :=
  ⟨by decide, by decide, by decide⟩

/-- C7 (amended): normalization is total and idempotent; a bare
identifier `"abc123"` normalizes to the fixed canonical watch URL
containing that identifier; a string whose trimmed form begins with a
recognized URL scheme is returned as its trimmed self — hence returned
unchanged exactly when it carries no surrounding whitespace. -/
theorem c7_normalize_total_idempotent :
    (∀ x : PyStr, normalize_input_line (normalize_input_line x) = normalize_input_line x) ∧
    normalize_input_line ("abc123".toList) = "https://www.youtube.com/watch?v=abc123".toList ∧
    List.IsInfix ("abc123".toList) (normalize_input_line ("abc123".toList)) ∧
    (∀ x : PyStr, pyStrip x = x →
      (httpPref.isPrefixOf x || httpsPref.isPrefixOf x) = true →
      normalize_input_line x = x) ∧
    (∀ x : PyStr,
      (httpPref.isPrefixOf (pyStrip x) || httpsPref.isPrefixOf (pyStrip x)) = true →
      normalize_input_line x = pyStrip x) := by
  refine ⟨normalize_input_line_idem, by decide, by decide, ?_, ?_⟩
  · intro x hx hsch
    have hxne : x ≠ [] := by
      intro hnil
      subst hnil
      revert hsch
      decide
    have h0 : pyStrip x ≠ [] := by rw [hx]; exact hxne
    have := normalize_scheme_strip x h0 (by rw [hx]; exact hsch)
    rw [this, hx]
  · intro x hsch
    have h0 : pyStrip x ≠ [] := by
      intro hnil
      rw [hnil] at hsch
      revert hsch
      decide
    exact normalize_scheme_strip x h0 hsch

/-- Witness for C7's amended theorem at concrete inputs. -/
theorem c7_normalize_witness :
    pyStrip ("https://e.x".toList) = "https://e.x".toList ∧
    normalize_input_line ("https://e.x".toList) = "https://e.x".toList ∧
    normalize_input_line (" https://e.x ".toList) = "https://e.x".toList :=
  ⟨by decide,
   c7_normalize_total_idempotent.2.2.2.1 ("https://e.x".toList) (by decide) (by decide),
   by
     have h := c7_normalize_total_idempotent.2.2.2.2 (" https://e.x ".toList) (by decide)
     rw [h]
     decide⟩

/-! ## Claim C8 — pre-fetch deduplication -/

theorem dedupe_aux_props (ls : List PyStr) : ∀ seen : List PyStr,
    ((dedupe_inputs_aux seen ls).1.Sublist ls) ∧
    (∀ l ∈ (dedupe_inputs_aux seen ls).1, pyLower (pyStrip l) ∉ seen) ∧
    ((dedupe_inputs_aux seen ls).1.map (fun l => pyLower (pyStrip l))).Nodup := by
  induction ls with
  | nil =>
    intro seen
    refine ⟨List.Sublist.refl _, ?_, ?_⟩ <;> simp [dedupe_inputs_aux]
  | cons ln rest ih =>
    intro seen
    by_cases hk : (pyLower (pyStrip ln)).isEmpty = true
    · have hunf : dedupe_inputs_aux seen (ln :: rest) = dedupe_inputs_aux seen rest := by
        simp only [dedupe_inputs_aux, hk, if_pos]
      rw [hunf]
      obtain ⟨h1, h2, h3⟩ := ih seen
      exact ⟨h1.cons _, h2, h3⟩
    · by_cases hm : pyLower (pyStrip ln) ∈ seen
      · have hunf : (dedupe_inputs_aux seen (ln :: rest)).1 = (dedupe_inputs_aux seen rest).1 := by
          simp only [dedupe_inputs_aux, hk, hm, if_neg, if_pos, Bool.false_eq_true,
            not_false_eq_true]
        obtain ⟨h1, h2, h3⟩ := ih seen
        rw [hunf]
        exact ⟨h1.cons _, h2, h3⟩
      · have hunf : (dedupe_inputs_aux seen (ln :: rest)).1 =
            ln :: (dedupe_inputs_aux (pyLower (pyStrip ln) :: seen) rest).1 := by
          simp only [dedupe_inputs_aux, hk, hm, if_neg, Bool.false_eq_true, not_false_eq_true]
        obtain ⟨h1, h2, h3⟩ := ih (pyLower (pyStrip ln) :: seen)
        rw [hunf]
        refine ⟨h1.cons₂ _, ?_, ?_⟩
        · intro l hl
          rcases List.mem_cons.mp hl with rfl | hl
          · exact hm
          · have := h2 l hl
            intro hcon
            exact this (List.mem_cons_of_mem _ hcon)
        · refine List.Nodup.cons ?_ h3
          intro hcon
          rw [List.mem_map] at hcon
          obtain ⟨l, hl, heq⟩ := hcon
          have hfresh := h2 l hl
          simp only at heq
          rw [heq] at hfresh
          exact hfresh (List.mem_cons_self _ _)

/-- C8: pre-fetch dedup keeps the first occurrence of each
lowercase-trimmed key in original order and reports later duplicates;
on `["X", " x ", "Y", "X"]` exactly `"X"` and `"Y"` survive, and the
reported lines are the 2nd and 4th processed lines. -/
theorem c8_prefetch_dedup :
    (dedupe_inputs (input_lines
        ["X".toList, " x ".toList, "Y".toList, "X".toList]) =
      (["X".toList, "Y".toList], ["x".toList, "X".toList])) ∧
    (input_lines ["X".toList, " x ".toList, "Y".toList, "X".toList]).get ⟨1, by decide⟩ =
      "x".toList ∧
    (input_lines ["X".toList, " x ".toList, "Y".toList, "X".toList]).get ⟨3, by decide⟩ =
      "X".toList ∧
    (∀ ls : List PyStr, (dedupe_inputs ls).1.Sublist ls) ∧
    (∀ ls : List PyStr, ((dedupe_inputs ls).1.map (fun l => pyLower (pyStrip l))).Nodup) := by
  refine ⟨by decide, by decide, by decide, ?_, ?_⟩
  · intro ls
    exact (dedupe_aux_props ls []).1
  · intro ls
    exact (dedupe_aux_props ls []).2.2

/-! ## Claim C9 — relative-time rendering -/

/-- C9: the rendering equals the spec's reading — decompose into
hours/minutes/seconds, keep only non-zero components in descending
order, join with the connective; non-positive deltas give the sentinel;
3661 seconds renders 1 hour, 1 minute and 1 second. -/
theorem c9_relative_time :
    (∀ t : Int, human_readable_delta_greek_full t = specRenderDelta t) ∧
    human_readable_delta_greek_full 3661 = "σε 1 ώρα και 1 λεπτό και 1 δευτερόλεπτο" ∧
    human_readable_delta_greek_full 0 = "λήγει τώρα" ∧
    human_readable_delta_greek_full (-5) = "λήγει τώρα" := by
  refine ⟨?_, by decide, by decide, by decide⟩
  intro t
  by_cases ht : t ≤ 0
  · simp [human_readable_delta_greek_full, specRenderDelta, ht]
  · simp only [human_readable_delta_greek_full, specRenderDelta, if_neg ht]
    by_cases h1 : t.toNat / 3600 = 0 <;>
      by_cases h2 : t.toNat % 3600 / 60 = 0 <;>
        by_cases h3 : t.toNat % 3600 % 60 = 0 <;>
          simp [h1, h2, h3, List.reduceOption]

/-! ## Claim C2 — expiry aggregation -/

/-- The source's default `favicon_service` (src 274). -/
def favicon_default : PyStr :=
  "https://www.google.com/s2/favicons?domain_url=https://www.youtube.com&sz=128".toList

theorem expire_epochs_eq_of_no_zero (b : List Record) :
    (∀ r ∈ b, r.expire ≠ some 0) →
    expire_epochs b = b.filterMap Record.expire := by
  induction b with
  | nil => intro _; rfl
  | cons r rs ih =>
    intro h
    have hr := h r (List.mem_cons_self r rs)
    have hrest := ih (fun x hx => h x (List.mem_cons_of_mem _ hx))
    unfold expire_epochs at *
    simp only [List.filterMap_cons]
    cases hre : r.expire with
    | none => simpa using hrest
    | some e =>
      have he : e ≠ 0 := by
        intro h0
        rw [h0] at hre
        exact hr hre
      simpa [he] using hrest

/-- C2 (counterexample): an expiry epoch of `0` is non-null, yet the
truthiness filter `if r[5]` drops it, so `expire_max` is `None` where
the claim's "maximum of all non-null expiry epochs" is `0`. -/
theorem c2_zero_epoch_counterexample :
    expire_max [(⟨"a".toList, none, none, none, none, some 0⟩ : Record)] = none ∧
    spec_expire_max [(⟨"a".toList, none, none, none, none, some 0⟩ : Record)] = some 0 ∧
    expire_max [(⟨"a".toList, none, none, none, none, some 0⟩ : Record)] ≠
      spec_expire_max [(⟨"a".toList, none, none, none, none, some 0⟩ : Record)] :=
  ⟨by decide, by decide, by decide⟩

/-- C2 (amended): `expire_max` is the maximum of all non-null *and
non-zero* expiry epochs (Python truthiness filters a `0` epoch), so it
agrees with the claimed maximum whenever no buffered epoch is `0`;
`{100, 300, None}` yields 300; with every expiry `None` it is undefined
and the special entry's title renders the "μη διαθέσιμη" sentinel. -/
theorem c2_expiry_aggregation :
    (∀ b : List Record, (∀ r ∈ b, r.expire ≠ some 0) →
      expire_max b = spec_expire_max b) ∧
    expire_max [(⟨"a".toList, none, none, none, none, some 100⟩ : Record),
                ⟨"b".toList, none, none, none, none, some 300⟩,
                ⟨"c".toList, none, none, none, none, none⟩] = some 300 ∧
    expire_max [(⟨"a".toList, none, none, none, none, none⟩ : Record),
                ⟨"b".toList, none, none, none, none, none⟩] = none ∧
    pyInStr ("μη διαθέσιμη".toList)
      (build_special_extinf_only_expire
        (main_expire_strings
          (expire_max [(⟨"a".toList, none, none, none, none, none⟩ : Record)])
          (fun _ => .error ())).1
        (main_expire_strings
          (expire_max [(⟨"a".toList, none, none, none, none, none⟩ : Record)])
          (fun _ => .error ())).2
        (some ("info".toList)) (some favicon_default)) = true := by
  refine ⟨?_, by decide, by decide, by decide⟩
  intro b hb
  unfold expire_max spec_expire_max
  rw [expire_epochs_eq_of_no_zero b hb]

/-- Witness for C2's amended theorem at a concrete buffer. -/
theorem c2_expiry_witness :
    expire_max [(⟨"w".toList, none, none, none, none, some 7⟩ : Record)] =
      spec_expire_max [(⟨"w".toList, none, none, none, none, some 7⟩ : Record)] :=
  c2_expiry_aggregation.1 _ (by decide)

/-! ## Claim C4 — the stream-resolution strategy chain -/

theorem matchChain_eq_firstSome (a b c : Option PyStr) :
    (match a with
     | some m => some m
     | none =>
       match b with
       | some m => some m
       | none => c) = firstSome [a, b, c] := by
  cases a <;> cases b <;> cases c <;> rfl

theorem scanDict_eq_specJsonScan (d : JDict) : scanDict d = specJsonScan d := by
  simp only [scanDict, specJsonScan]
  generalize (d.requested_formats.getD []).findSome?
      (fun f => if optTruthy f.url then f.url else none) = rq
  generalize (d.formats.getD []).findSome? (fun f =>
      if optTruthy f.url &&
          (pyInStr (".m3u8".toList) (pyOrD f.ext []) ||
           pyInStr ("m3u8".toList) (pyOrD f.protocol [])) then
        f.url
      else none) = fm
  generalize (d.formats.getD []).findSome?
      (fun f => if optTruthy f.url then f.url else none) = fu
  cases hd : d.url with
  | none => cases rq <;> cases fm <;> cases fu <;> rfl
  | some s =>
    by_cases hs : s.isEmpty = true <;>
      cases rq <;> cases fm <;> cases fu <;>
        simp [firstSome, optTruthy, hs]

theorem specJsonStrategy_eq (o : StreamOracle) :
    specJsonStrategy o = jsonStrategyOutcome o := by
  unfold specJsonStrategy jsonStrategyOutcome
  cases o.jOut with
  | error e => rfl
  | ok rawOut =>
    by_cases hout : (pyStrip rawOut).isEmpty = true
    · simp [hout]
    · have hout' : (pyStrip rawOut).isEmpty = false := Bool.eq_false_iff.mpr hout
      simp only [hout', Bool.false_eq_true, if_false]
      cases o.jParse (pyStrip rawOut) with
      | error e => rfl
      | ok v =>
        cases v with
        | other => rfl
        | dict d => exact (scanDict_eq_specJsonScan d).symm

/-- C4: when a format descriptor is configured (`fmt` non-empty, as
every caller in `main` guarantees), `get_stream_url_with_ytdlp` is the
spec's ordered strategy chain — default `-g`, then `-f <fmt> -g`, then
the `-j` JSON scan — and returns the first URL any strategy yields,
`None` when all fail. -/
theorem c4_stream_strategy_chain :
    ∀ (fmt : PyStr) (o : StreamOracle), fmt ≠ [] →
      get_stream_url_with_ytdlp fmt o = specStreamChain o := by
  intro fmt o hfmt
  have hfe : (!fmt.isEmpty) = true := by
    cases fmt with
    | nil => exact absurd rfl hfmt
    | cons c cs => rfl
  have h1 : specDirectDefault o = directUrlOutcome o.gOut := rfl
  have h2 : specDirectQuality o = directUrlOutcome o.fOut := rfl
  unfold get_stream_url_with_ytdlp specStreamChain
  rw [hfe, h1, h2, specJsonStrategy_eq]
  simp only [if_true]
  exact matchChain_eq_firstSome _ _ _

/-- Witness for C4 at a concrete format and oracle. -/
theorem c4_stream_witness :
    ("best".toList ≠ []) ∧
    get_stream_url_with_ytdlp ("best".toList)
        ⟨.ok ("junk\nhttp://s.m3u8".toList), .ok [], .error (), fun _ => .ok .other⟩ =
      specStreamChain
        ⟨.ok ("junk\nhttp://s.m3u8".toList), .ok [], .error (), fun _ => .ok .other⟩ :=
  ⟨by decide,
   c4_stream_strategy_chain ("best".toList)
     ⟨.ok ("junk\nhttp://s.m3u8".toList), .ok [], .error (), fun _ => .ok .other⟩
     (by decide)⟩

/-! ## Claim C6 — retry with linear backoff -/

theorem runRetriesAux_ok {α : Type} (call : Nat → Except Unit α) (b : ℚ) (a : α) :
    ∀ (k idx rem : Nat), k ≤ rem →
      (∀ i, i < k → call (idx + i) = .error ()) →
      call (idx + k) = .ok a →
      runRetriesAux call b idx rem =
        (.ok a, (List.range k).map (fun (i : Nat) => b * ((idx : ℚ) + (i : ℚ) + 1))) := by
  intro k
  induction k with
  | zero =>
    intro idx rem _ _ hk
    have hc : call idx = .ok a := by simpa using hk
    cases rem with
    | zero => simp [runRetriesAux, hc]
    | succ rem' => simp [runRetriesAux, hc]
  | succ k ih =>
    intro idx rem hle hfail hk
    obtain ⟨rem', rfl⟩ : ∃ rem'', rem = rem'' + 1 := by
      cases rem with
      | zero => omega
      | succ r => exact ⟨r, rfl⟩
    have h0 : call idx = .error () := by simpa using hfail 0 (Nat.succ_pos k)
    have ihh := ih (idx + 1) rem' (by omega)
      (fun i hi => by
        rw [show idx + 1 + i = idx + (i + 1) by omega]
        exact hfail (i + 1) (by omega))
      (by
        rw [show idx + 1 + k = idx + (k + 1) by omega]
        exact hk)
    simp only [runRetriesAux, h0, ihh]
    rw [List.range_succ_eq_map, List.map_cons, List.map_map]
    refine congrArg _ ?_
    refine List.cons_eq_cons.mpr ⟨by push_cast; ring, ?_⟩
    apply List.map_congr_left
    intro i _
    simp only [Function.comp]
    push_cast
    ring

theorem runRetriesAux_allFail {α : Type} (call : Nat → Except Unit α) (b : ℚ) :
    ∀ (rem idx : Nat),
      (∀ i, i ≤ rem → call (idx + i) = .error ()) →
      runRetriesAux call b idx rem =
        (.error (), (List.range rem).map (fun (i : Nat) => b * ((idx : ℚ) + (i : ℚ) + 1))) := by
  intro rem
  induction rem with
  | zero =>
    intro idx h
    have hc : call idx = .error () := by simpa using h 0 (Nat.le_refl 0)
    simp [runRetriesAux, hc]
  | succ rem' ih =>
    intro idx h
    have h0 : call idx = .error () := by simpa using h 0 (Nat.zero_le _)
    have ihh := ih (idx + 1) (fun i hi => by
      rw [show idx + 1 + i = idx + (i + 1) by omega]
      exact h (i + 1) (by omega))
    simp only [runRetriesAux, h0, ihh]
    rw [List.range_succ_eq_map, List.map_cons, List.map_map]
    refine congrArg _ ?_
    refine List.cons_eq_cons.mpr ⟨by push_cast; ring, ?_⟩
    apply List.map_congr_left
    intro i _
    simp only [Function.comp]
    push_cast
    ring

def exceptOk {α : Type} : Except Unit α → Bool
  | .ok _ => true
  | .error _ => false

theorem worker_stream_not_nonstr (cfg : RunCfg) (w : PyStr) (o : WorkerOracle)
    (h : stream_url_caught o ≠ .nonstr) : worker_stream cfg w o ≠ .nonstr := by
  simp only [worker_stream]
  split
  · intro hcon
    cases hcon
  · exact h

theorem worker_never_raises (cfg : RunCfg) (line : PyStr) (o : WorkerOracle)
    (h : stream_url_caught o ≠ .nonstr) :
    exceptOk (check_url_entry_buffered cfg line o) = true := by
  simp only [check_url_entry_buffered]
  split
  · rfl
  · have hs := worker_stream_not_nonstr cfg (normalize_input_line (pyStrip line)) o h
    cases hws : worker_stream cfg (normalize_input_line (pyStrip line)) o with
    | nonstr => exact absurd hws hs
    | noneV => simp [hws, exceptOk]
    | str s => simp [hws, exceptOk]

theorem worker_total (cfg : RunCfg) (line : PyStr) (o : WorkerOracle)
    (h : stream_url_caught o ≠ .nonstr) :
    ∃ r : Record, check_url_entry_buffered cfg line o = .ok r := by
  have hok := worker_never_raises cfg line o h
  cases hc : check_url_entry_buffered cfg line o with
  | ok r => exact ⟨r, rfl⟩
  | error e =>
    rw [hc] at hok
    simp [exceptOk] at hok

/-- C6: the retry wrapper retries a failing call up to `retries`
additional times with linear backoff delays `backoff * attempt`
(attempts numbered from 1); when the failures exceed `retries` the
failure propagates; and the worker converts a propagated
stream-resolution failure into a returned record rather than an
exception. -/
theorem c6_retry_backoff :
    (∀ (α : Type) (call : Nat → Except Unit α) (b : ℚ) (retries k : Nat) (a : α),
      k ≤ retries → (∀ i, i < k → call i = .error ()) → call k = .ok a →
      run_yt_dlp_cmd_with_retries call retries b =
        (.ok a, (List.range k).map (fun (i : Nat) => b * ((i : ℚ) + 1)))) ∧
    (∀ (α : Type) (call : Nat → Except Unit α) (b : ℚ) (retries : Nat),
      (∀ i, i ≤ retries → call i = .error ()) →
      run_yt_dlp_cmd_with_retries call retries b =
        (.error (), (List.range retries).map (fun (i : Nat) => b * ((i : ℚ) + 1)))) ∧
    (∀ (cfg : RunCfg) (line : PyStr) (o : WorkerOracle),
      o.streamCall = .error () →
      (∃ r : Record, check_url_entry_buffered cfg line o = .ok r) ∧
      stream_url_caught o = .noneV) := by
  refine ⟨?_, ?_, ?_⟩
  · intro α call b retries k a hk hfail hok
    have := runRetriesAux_ok call b a k 0 retries hk
      (by intro i hi; simpa using hfail i hi) (by simpa using hok)
    rw [run_yt_dlp_cmd_with_retries, this]
    refine congrArg _ ?_
    apply List.map_congr_left
    intro i _
    push_cast
    ring
  · intro α call b retries hfail
    have := runRetriesAux_allFail call b retries 0
      (by intro i hi; simpa using hfail i hi)
    rw [run_yt_dlp_cmd_with_retries, this]
    refine congrArg _ ?_
    apply List.map_congr_left
    intro i _
    push_cast
    ring
  · intro cfg line o h
    have hcaught : stream_url_caught o = .noneV := by simp [stream_url_caught, h]
    refine ⟨worker_total cfg line o ?_, hcaught⟩
    rw [hcaught]
    intro hcon
    cases hcon

/-- Witness for C6 at a concrete oracle: the first two attempts fail,
the third succeeds within `retries = 3`; and an all-failing call with
`retries = 1` propagates the error after one backoff sleep. -/
theorem c6_retry_witness :
    ((2 : Nat) ≤ 3 ∧
      run_yt_dlp_cmd_with_retries
          (fun i => if i < 2 then (.error () : Except Unit Nat) else .ok 42) 3 2 =
        (.ok 42, (List.range 2).map (fun (i : Nat) => (2 : ℚ) * ((i : ℚ) + 1)))) ∧
    run_yt_dlp_cmd_with_retries (fun _ => (.error () : Except Unit Nat)) 1 2 =
      (.error (), (List.range 1).map (fun (i : Nat) => (2 : ℚ) * ((i : ℚ) + 1))) ∧
    (∃ r : Record, check_url_entry_buffered ⟨false, true⟩ ("x".toList)
        ⟨.ok [], .error ()⟩ = .ok r) :=
  ⟨⟨by decide,
    c6_retry_backoff.1 Nat (fun i => if i < 2 then .error () else .ok 42) 2 3 2 42
      (by decide) (fun i hi => by interval_cases i <;> rfl) (by rfl)⟩,
   c6_retry_backoff.2.1 Nat (fun _ => .error ()) 2 1 (fun i _ => rfl),
   (c6_retry_backoff.2.2 ⟨false, true⟩ ("x".toList) ⟨.ok [], .error ()⟩ rfl).1⟩

/-! ## Claim C5 — fallback endpoint -/

/-- C5: when stream resolution fails (exception or `None`), a record of
a non-blank line gets the normalized watch URL as endpoint if the
fallback flag is set, and no endpoint otherwise; a record with no
endpoint is dropped by the emission loop. -/
theorem c5_fallback_endpoint :
    (∀ (cfg : RunCfg) (line : PyStr) (o : WorkerOracle),
      pyStrip line ≠ [] → stream_url_caught o = .noneV →
      (cfg.fallbackWatch = true →
        (worker_result cfg line o).streamUrl =
          some (normalize_input_line (pyStrip line))) ∧
      (cfg.fallbackWatch = false → (worker_result cfg line o).streamUrl = none)) ∧
    (∀ (sp : Option PyStr) (fav : PyStr) (urls keys : List PyStr) (r : Record)
        (rs : List Record), r.streamUrl = none →
      emitAux sp fav urls keys (r :: rs) = emitAux sp fav urls keys rs) := by
  constructor
  · intro cfg line o hline hnone
    have hne : (pyStrip line).isEmpty = false := by
      cases h : pyStrip line with
      | nil => exact absurd h hline
      | cons a l => rfl
    have hstream : worker_stream cfg (normalize_input_line (pyStrip line)) o =
        (if cfg.fallbackWatch then .str (normalize_input_line (pyStrip line)) else .noneV) := by
      simp [worker_stream, hnone, streamValTruthy]
    constructor
    · intro hf
      rw [hf] at hstream
      simp [worker_result, check_url_entry_buffered, hne, hstream]
    · intro hf
      rw [hf] at hstream
      simp [worker_result, check_url_entry_buffered, hne, hstream]
  · intro sp fav urls keys r rs h
    simp [emitAux, h, optTruthy]

/-- Witness for C5 at a concrete line, flag and oracle. -/
theorem c5_fallback_witness :
    (worker_result ⟨false, true⟩ ("abc".toList) ⟨.ok [], .ok .noneV⟩).streamUrl =
      some (normalize_input_line (pyStrip ("abc".toList))) ∧
    emitAux none [] [] [] [(⟨"a".toList, none, none, none, none, none⟩ : Record)] =
      emitAux none [] [] [] [] :=
  ⟨(c5_fallback_endpoint.1 ⟨false, true⟩ ("abc".toList) ⟨.ok [], .ok .noneV⟩
      (by decide) rfl).1 rfl,
   c5_fallback_endpoint.2 none [] [] []
     ⟨"a".toList, none, none, none, none, none⟩ [] rfl⟩

/-! ## Claim C10 — worker totality -/

/-- C10 (counterexample): the worker is not total for every resolver
behaviour.  When the stream resolution hands back a truthy non-string
value — which `get_stream_url_with_ytdlp` can return from the `-j` JSON
path, e.g. for the document `{"url": 1}` (src 175) —
`EXPIRE_RE.search(stream_url)` at src 239, outside any `try`, raises
`TypeError`; the exception escapes `check_url_entry_buffered`, the
coordinator's catch branch (src 340-341) fires, and the record is
dropped from the buffer: one input line, zero buffered records. -/
theorem c10_nonstring_url_counterexample :
    check_url_entry_buffered ⟨true, false⟩ ("a".toList) ⟨.ok [], .ok .nonstr⟩ =
      .error () ∧
    collect_buffered ⟨true, false⟩ ["a".toList] (fun _ => ⟨.ok [], .ok .nonstr⟩) = [] ∧
    (collect_buffered ⟨true, false⟩ ["a".toList]
        (fun _ => ⟨.ok [], .ok .nonstr⟩)).length ≠
      (["a".toList] : List PyStr).length :=
  ⟨rfl, rfl, by decide⟩

/-- C10 (amended): the worker returns a 6-field record and never
surfaces an error for every oracle behaviour whose caught stream value
is `None` or a string — metadata failures are absorbed inside
`get_minimal_meta` and a raising stream call is caught and converted to
`None` — and under that condition the coordinator's catch branch drops
nothing: the buffer holds one record per submitted line.  But when the
caught stream value is a truthy non-string (the `-j` path can return
one, src 175), the untried `EXPIRE_RE.search` at src 239 raises on any
non-blank line, so the worker propagates a failure and the catch branch
is reachable. -/
theorem c10_worker_totality :
    (∀ (cfg : RunCfg) (rawLine : PyStr) (o : WorkerOracle),
      stream_url_caught o ≠ .nonstr →
      exceptOk (check_url_entry_buffered cfg rawLine o) = true) ∧
    (∀ (cfg : RunCfg) (rawLine : PyStr) (o : WorkerOracle),
      stream_url_caught o ≠ .nonstr →
      ∃ r : Record, check_url_entry_buffered cfg rawLine o = .ok r) ∧
    (∀ (cfg : RunCfg) (inputs : List PyStr) (os : PyStr → WorkerOracle),
      (∀ l, stream_url_caught (os l) ≠ .nonstr) →
      (collect_buffered cfg inputs os).length = inputs.length) ∧
    (∀ (cfg : RunCfg) (rawLine : PyStr) (o : WorkerOracle),
      stream_url_caught o = .nonstr → pyStrip rawLine ≠ [] →
      check_url_entry_buffered cfg rawLine o = .error ()) := by
  refine ⟨worker_never_raises, worker_total, ?_, ?_⟩
  · intro cfg inputs os hos
    unfold collect_buffered
    induction inputs with
    | nil => rfl
    | cons l ls ih =>
      simp only [List.map_cons, List.filterMap_cons]
      obtain ⟨r, hr⟩ := worker_total cfg l (os l) (hos l)
      rw [hr]
      simpa using ih
  · intro cfg rawLine o h hline
    have hne : (pyStrip rawLine).isEmpty = false := by
      cases hc : pyStrip rawLine with
      | nil => exact absurd hc hline
      | cons a l => rfl
    have hws : worker_stream cfg (normalize_input_line (pyStrip rawLine)) o = .nonstr := by
      simp [worker_stream, h, streamValTruthy]
    simp [check_url_entry_buffered, hne, hws]

/-- Witness for C10's amended theorem: a string-valued stream outcome
gives a buffered record (and a full buffer), a `.nonstr` outcome the
propagated error. -/
theorem c10_worker_witness :
    (∃ r : Record, check_url_entry_buffered ⟨false, true⟩ ("a".toList)
        ⟨.ok [], .ok (.str ("http://u".toList))⟩ = .ok r) ∧
    (collect_buffered ⟨false, true⟩ ["a".toList]
        (fun _ => ⟨.ok [], .ok (.str ("http://u".toList))⟩)).length =
      (["a".toList] : List PyStr).length ∧
    check_url_entry_buffered ⟨false, true⟩ ("b".toList) ⟨.ok [], .ok .nonstr⟩ =
      .error () :=
  ⟨c10_worker_totality.2.1 ⟨false, true⟩ ("a".toList)
     ⟨.ok [], .ok (.str ("http://u".toList))⟩ (by decide),
   c10_worker_totality.2.2.1 ⟨false, true⟩ ["a".toList]
     (fun _ => ⟨.ok [], .ok (.str ("http://u".toList))⟩)
     (fun _ => (show stream_url_caught
         ⟨.ok [], .ok (.str ("http://u".toList))⟩ ≠ .nonstr by decide)),
   c10_worker_totality.2.2.2 ⟨false, true⟩ ("b".toList)
     ⟨.ok [], .ok .nonstr⟩ rfl (by decide)⟩

/-! ## Claims C1 and C3 — emission order and post-fetch dedup -/

theorem emitAux_entries_eq_kept (sp : Option PyStr) (fav : PyStr) :
    ∀ (b : List Record) (urls keys : List PyStr),
      (emitAux sp fav urls keys b).1 = (keptRecords sp urls keys b).map (mkEntry fav) := by
  intro b
  induction b with
  | nil => intro urls keys; rfl
  | cons r rs ih =>
    intro urls keys
    simp only [emitAux, keptRecords]
    split
    · exact ih urls keys
    · split
      · exact ih urls keys
      · split
        · simpa using ih urls keys
        · simpa using ih _ _

theorem keptRecords_sublist (sp : Option PyStr) :
    ∀ (b : List Record) (urls keys : List PyStr),
      (keptRecords sp urls keys b).Sublist b := by
  intro b
  induction b with
  | nil => intro _ _; exact List.nil_sublist _
  | cons r rs ih =>
    intro urls keys
    simp only [keptRecords]
    split
    · exact (ih _ _).cons _
    · split
      · exact (ih _ _).cons _
      · split
        · exact (ih _ _).cons _
        · exact (ih _ _).cons₂ _

/-- C1 (counterexample): the emission loop iterates the buffer in
completion order, so two completion orders of the same two resolved
records emit different sequences — the entries do not come out in
input-line order independently of worker completion order. -/
theorem c1_completion_order_counterexample :
    ([(⟨"b".toList, none, some ("tb".toList), none, some ("http://ub".toList), none⟩ : Record),
      ⟨"a".toList, none, some ("ta".toList), none, some ("http://ua".toList), none⟩].Perm
     [(⟨"a".toList, none, some ("ta".toList), none, some ("http://ua".toList), none⟩ : Record),
      ⟨"b".toList, none, some ("tb".toList), none, some ("http://ub".toList), none⟩]) ∧
    emitted_entries none ("F".toList)
        [(⟨"b".toList, none, some ("tb".toList), none, some ("http://ub".toList), none⟩ : Record),
         ⟨"a".toList, none, some ("ta".toList), none, some ("http://ua".toList), none⟩] ≠
      emitted_entries none ("F".toList)
        [(⟨"a".toList, none, some ("ta".toList), none, some ("http://ua".toList), none⟩ : Record),
         ⟨"b".toList, none, some ("tb".toList), none, some ("http://ub".toList), none⟩] ∧
    (emitted_entries none ("F".toList)
        [(⟨"b".toList, none, some ("tb".toList), none, some ("http://ub".toList), none⟩ : Record),
         ⟨"a".toList, none, some ("ta".toList), none, some ("http://ua".toList), none⟩]).map
      Prod.snd = ["http://ub".toList, "http://ua".toList] :=
  ⟨by decide, by decide, by decide⟩

/-- C1 (amended): the entries after the special entry follow the
*buffered* (completion) order, not the input order: the emitted
sequence is exactly the first-seen-wins filtered buffer, an
order-preserving subsequence of the buffered list, mapped to entries —
deterministic given the buffered sequence. -/
theorem c1_order_follows_buffer :
    ∀ (sp : Option PyStr) (fav : PyStr) (buffered : List Record),
      (keptRecords sp [] [] buffered).Sublist buffered ∧
      emitted_entries sp fav buffered = (keptRecords sp [] [] buffered).map (mkEntry fav) := by
  intro sp fav b
  exact ⟨keptRecords_sublist sp b [] [], emitAux_entries_eq_kept sp fav b [] []⟩

/-- C3: the post-fetch dedup skip rules — no endpoint, endpoint equal to
the special entry's, endpoint or identity key already emitted — and the
first-seen-wins collapse of two records sharing a stream endpoint. -/
theorem c3_postfetch_dedup :
    (∀ (sp : Option PyStr) (urls keys : List PyStr) (r : Record) (rs : List Record),
      optTruthy r.streamUrl = false →
      keptRecords sp urls keys (r :: rs) = keptRecords sp urls keys rs) ∧
    (∀ (sp : Option PyStr) (urls keys : List PyStr) (r : Record) (rs : List Record)
        (s : PyStr), r.streamUrl = some s → sp = some s →
      keptRecords sp urls keys (r :: rs) = keptRecords sp urls keys rs) ∧
    (∀ (sp : Option PyStr) (urls keys : List PyStr) (r : Record) (rs : List Record)
        (s : PyStr), r.streamUrl = some s →
      (s ∈ urls ∨ (identKey r ≠ [] ∧ identKey r ∈ keys)) →
      keptRecords sp urls keys (r :: rs) = keptRecords sp urls keys rs) ∧
    (∀ (fav : PyStr) (r1 r2 : Record) (s : PyStr),
      r1.streamUrl = some s → s ≠ [] → r2.streamUrl = some s →
      emitted_entries none fav [r1, r2] = [mkEntry fav r1]) := by
  refine ⟨?_, ?_, ?_, ?_⟩
  · intro sp urls keys r rs h
    simp [keptRecords, h]
  · intro sp urls keys r rs s hru hsp
    subst hsp
    by_cases hs : s.isEmpty = true
    · have h1 : optTruthy r.streamUrl = false := by rw [hru]; simp [optTruthy, hs]
      simp [keptRecords, h1]
    · have hs' : s.isEmpty = false := Bool.eq_false_iff.mpr hs
      simp [keptRecords, hru, optTruthy, hs']
  · intro sp urls keys r rs s hru hdup
    by_cases hs : s.isEmpty = true
    · have h1 : optTruthy r.streamUrl = false := by rw [hru]; simp [optTruthy, hs]
      simp [keptRecords, h1]
    · have hs' : s.isEmpty = false := Bool.eq_false_iff.mpr hs
      have hop : optTruthy (some s) = true := by simp [optTruthy, hs']
      by_cases hsp2 : (optTruthy sp && (s == sp.getD [])) = true
      · simp [keptRecords, hru, hop, hsp2]
      · have hsp2' := Bool.eq_false_iff.mpr hsp2
        simp [keptRecords, hru, hop, hsp2', hdup]
  · intro fav r1 r2 s h1 hs h2
    have hs' : s.isEmpty = false := by
      cases hsc : s with
      | nil => exact absurd hsc hs
      | cons a l => rfl
    simp [emitted_entries, emitAux, h1, h2, optTruthy, hs']

/-- Witness for C3's skip rules at concrete records. -/
theorem c3_postfetch_witness :
    keptRecords none [] [] [(⟨"a".toList, none, none, none, none, none⟩ : Record)] = [] ∧
    keptRecords (some ("http://u".toList)) [] []
      [(⟨"a".toList, none, none, none, some ("http://u".toList), none⟩ : Record)] = [] ∧
    keptRecords none ["http://u".toList] []
      [(⟨"a".toList, none, none, none, some ("http://u".toList), none⟩ : Record)] = [] ∧
    emitted_entries none ("F".toList)
      [(⟨"a".toList, none, some ("ta".toList), none, some ("http://u".toList), none⟩ : Record),
       ⟨"b".toList, none, some ("tb".toList), none, some ("http://u".toList), none⟩] =
      [mkEntry ("F".toList)
        (⟨"a".toList, none, some ("ta".toList), none, some ("http://u".toList), none⟩ : Record)] :=
  ⟨(c3_postfetch_dedup.1 none [] []
      ⟨"a".toList, none, none, none, none, none⟩ [] (by decide)).trans rfl,
   (c3_postfetch_dedup.2.1 (some ("http://u".toList)) [] []
      ⟨"a".toList, none, none, none, some ("http://u".toList), none⟩ []
      ("http://u".toList) rfl rfl).trans rfl,
   (c3_postfetch_dedup.2.2.1 none ["http://u".toList] []
      ⟨"a".toList, none, none, none, some ("http://u".toList), none⟩ []
      ("http://u".toList) rfl (Or.inl (by decide))).trans rfl,
   c3_postfetch_dedup.2.2.2 ("F".toList)
     ⟨"a".toList, none, some ("ta".toList), none, some ("http://u".toList), none⟩
     ⟨"b".toList, none, some ("tb".toList), none, some ("http://u".toList), none⟩
     ("http://u".toList) rfl (by decide) rfl⟩

end YtM3u
